import Mathlib

/-!
Verification of the falsity-chart generator repository.

The repository has three parts:
* a backend multi-agent orchestrator (Generator → Reviewer → Fixer loop);
  only its README and startup script are present, so the loop is modelled
  from the specification (section 4.4 of spec.md),
* a frontend API client (`src/frontend/src/lib/api.ts`) with a markdown
  table parser and an SSE streaming client, embedded below from the source,
* frontend pages and session-storage utilities, embedded from the source.
-/

namespace FalsityChart

/-- Status values of a finished run, as serialized by the backend and
declared in the API client type `ProcessingResult`
(`src/frontend/src/lib/api.ts`). -/
inductive Status where
  | approved
  | max_iterations_reached
  | reviewer_failed
  | fixer_failed
deriving DecidableEq, Repr

/-- One history record `IterationData` (api.ts and the types module). -/
structure IterationData where
  iteration : Nat
  chart : String
  issues : String
deriving DecidableEq, Repr

/-- The run result `ProcessingResult` as declared in
`src/frontend/src/lib/api.ts` (status field admits all four values). -/
structure ProcessingResult where
  final_chart : String
  iterations : Nat
  history : List IterationData
  status : Status
deriving DecidableEq, Repr

/-- Modelled from the spec: the three agent roles of section 4
(Generator, Reviewer, Fixer).  The backend agent code is not in the
repository snapshot, so each role is an oracle: `generate` is the one
Generator call, `review k chart` is the Reviewer call of iteration `k`,
`fix k chart issues` the Fixer call of iteration `k`.  The source text is
fixed for a run, so it is captured inside the oracles.  `Except.error ()`
is an UpstreamFailure of the call; an empty issues string is the
Reviewer's approval marker (spec section 4.2, scenarios A-C). -/
structure Agents where
  generate : Except Unit String
  review : Nat → String → Except Unit String
  fix : Nat → String → String → Except Unit String

/-- Modelled from the spec: outcome of a run together with the number of
Reviewer and Fixer calls it performed (the call counts of the stopping
rationale in section 4.4). -/
structure LoopOut where
  result : ProcessingResult
  reviewerCalls : Nat
  fixerCalls : Nat
deriving DecidableEq, Repr

/-- Modelled from the spec: failure signal classification of section 7;
a Generator failure surfaces as `upstreamFailure` with no RunResult. -/
inductive Failure where
  | invalidInput
  | upstreamFailure
deriving DecidableEq, Repr

/-- Modelled from the spec: the REVIEWING/FIXING loop of the orchestrator
state machine (section 4.4, steps 2 and 3).  `fuel` is the number of
reviews still allowed; the run entry point starts it at `maxIterations`,
and since the loop stops as soon as `maxIterations ≤ iteration`, the
`fuel = 0` branch is unreachable whenever `1 ≤ maxIterations`.
Each REVIEWING visit uses iteration number `hist.length + 1`, appends an
`IterationData` record after a successful review, stops approved on empty
issues, stops exhausted when the iteration cap is hit, and otherwise runs
the Fixer and loops. -/
def reviewLoop (ag : Agents) (maxIterations : Nat) :
    Nat → String → List IterationData → LoopOut
  | 0, chart, hist =>
      ⟨⟨chart, hist.length, hist, Status.max_iterations_reached⟩, 0, 0⟩
  | fuel + 1, chart, hist =>
      match ag.review (hist.length + 1) chart with
      | Except.error _ =>
          ⟨⟨chart, hist.length, hist, Status.reviewer_failed⟩, 1, 0⟩
      | Except.ok issues =>
          if issues = "" then
            ⟨⟨chart, hist.length + 1,
              hist ++ [⟨hist.length + 1, chart, issues⟩], Status.approved⟩, 1, 0⟩
          else if maxIterations ≤ hist.length + 1 then
            ⟨⟨chart, hist.length + 1,
              hist ++ [⟨hist.length + 1, chart, issues⟩],
              Status.max_iterations_reached⟩, 1, 0⟩
          else
            match ag.fix (hist.length + 1) chart issues with
            | Except.error _ =>
                ⟨⟨chart, hist.length + 1,
                  hist ++ [⟨hist.length + 1, chart, issues⟩],
                  Status.fixer_failed⟩, 1, 1⟩
            | Except.ok chart2 =>
                let rest := reviewLoop ag maxIterations fuel chart2
                  (hist ++ [⟨hist.length + 1, chart, issues⟩])
                ⟨rest.result, rest.reviewerCalls + 1, rest.fixerCalls + 1⟩

/-- Modelled from the spec: default round cap of `run` (section 6 and the
backend README configuration section). -/
def defaultMaxIterations : Nat := 3

/-- Modelled from the spec: the run entry point (sections 4.4 and 6).
SEEDING calls the Generator once; on failure the caller receives an
`upstreamFailure` signal and no RunResult; on success the review loop
starts with iteration 0 and empty history. -/
def run (ag : Agents) (maxIterations : Nat) : Except Failure LoopOut :=
  match ag.generate with
  | Except.error _ => Except.error Failure.upstreamFailure
  | Except.ok chart0 =>
      Except.ok (reviewLoop ag maxIterations maxIterations chart0 [])

/-- Modelled from the spec: "the chart produced before iteration k" —
the Generator output when no iteration completed, otherwise the Fixer
output applied to the last recorded iteration. -/
def chartProv (ag : Agents) (c0 chart : String) (hist : List IterationData) : Prop :=
  match hist.getLast? with
  | none => chart = c0
  | some r => ag.fix r.iteration r.chart r.issues = Except.ok chart

/-- Serialization of a status value, the string literals of the union type
in `src/frontend/src/lib/api.ts`. -/
def Status.serialize : Status → String
  | Status.approved => "approved"
  | Status.max_iterations_reached => "max_iterations_reached"
  | Status.reviewer_failed => "reviewer_failed"
  | Status.fixer_failed => "fixer_failed"

/-- The four status literals of the `ProcessingResult` union in the API
client, `src/frontend/src/lib/api.ts` lines 11-16. -/
def apiStatusValues : List String :=
  ["approved", "max_iterations_reached", "reviewer_failed", "fixer_failed"]

/-- The two status literals of the `ProcessingResult` union in the shared
types module (`src/unnamed/part_002`), the type imported by the
presentation pages via the types path. -/
def typesStatusValues : List String :=
  ["approved", "max_iterations_reached"]

/-- Status union of the types-module `ProcessingResult`
(`src/unnamed/part_002`): only two values. -/
inductive TypesStatus where
  | approved
  | max_iterations_reached
deriving DecidableEq, Repr

/-- The `ProcessingResult` interface of the types module
(`src/unnamed/part_002`), the shape the presentation pages consume. -/
structure TypesProcessingResult where
  final_chart : String
  iterations : Nat
  history : List IterationData
  status : TypesStatus
deriving DecidableEq, Repr

/-! ## JS string primitives

JavaScript strings are sequences of code units, so the string methods the
frontend uses (`trim`, `split` with a one-character separator,
`startsWith`, `includes`, `slice`) are embedded as structurally recursive
functions on the character list of a `String`. -/

/-- Whitespace test of `String.prototype.trim` (the characters that occur
in this code base). -/
def isJsSpace (c : Char) : Bool :=
  c = ' ' || c = '\t' || c = '\n' || c = '\r'

/-- `trim`: remove leading and trailing whitespace. -/
def jsTrim (s : String) : String :=
  (((s.data.dropWhile isJsSpace).reverse.dropWhile isJsSpace).reverse).asString

/-- Split accumulator: `cur` holds the characters of the current field in
reverse. -/
def splitCharAux (sep : Char) : List Char → List Char → List (List Char)
  | [], cur => [cur.reverse]
  | c :: cs, cur =>
      if c = sep then cur.reverse :: splitCharAux sep cs []
      else splitCharAux sep cs (c :: cur)

/-- `split(sep)` with a one-character separator: always at least one
field, empty fields kept. -/
def jsSplit (s : String) (sep : Char) : List String :=
  (splitCharAux sep s.data []).map List.asString

/-- `startsWith(pre)`. -/
def jsStartsWith (s pre : String) : Bool :=
  pre.data.isPrefixOf s.data

/-- Substring scan for `includes`. -/
def jsIncludesAux (pat : List Char) : List Char → Bool
  | [] => pat.isPrefixOf []
  | c :: cs => pat.isPrefixOf (c :: cs) || jsIncludesAux pat cs

/-- `includes(pat)`: some suffix starts with the pattern. -/
def jsIncludes (s pat : String) : Bool :=
  jsIncludesAux pat.data s.data

/-- `slice(n)`: drop the first `n` characters. -/
def jsDrop (s : String) (n : Nat) : String :=
  (s.data.drop n).asString

/-! ## Markdown table parser (`parseMarkdownTable`, api.ts lines 162-209) -/

/-- Header-row test of the parser: the line must contain both the
substrings "Para" and "Date" (`lines[i].includes`). -/
def headerLine (l : String) : Bool :=
  jsIncludes l "Para" && jsIncludes l "Date"

/-- Row shape returned by `parseMarkdownTable` (the anonymous
seven-field record of its return type). -/
structure ParsedRow where
  paragraph : String
  date : String
  speaker : String
  context : String
  misstatement : String
  falsityReason : String
  falsitySummary : String
deriving DecidableEq, Repr

/-- Cell extraction of one data line: split on the pipe character, trim
each cell, keep only the non-empty cells. -/
def rowCells (line : String) : List String :=
  ((jsSplit line '|').map jsTrim).filter (fun c => 0 < c.length)

/-- Positional assignment of the first seven cells to the row fields
(guarded in the parser by a length check, so the defaults never fire
there). -/
def mkParsedRow (cells : List String) : ParsedRow :=
  ⟨cells.getD 0 "", cells.getD 1 "", cells.getD 2 "", cells.getD 3 "",
   cells.getD 4 "", cells.getD 5 "", cells.getD 6 ""⟩

/-- Body of the parser's data-row loop: skip an empty trimmed line, skip
a line not starting with a pipe, push a row when at least seven non-empty
cells remain, silently drop the line otherwise. -/
def tableRowStep (data : List ParsedRow) (l : String) : List ParsedRow :=
  let line := jsTrim l
  if line = "" then data
  else if ¬ jsStartsWith line "|" then data
  else if 7 ≤ (rowCells line).length then data ++ [mkParsedRow (rowCells line)]
  else data

/-- `parseMarkdownTable` of `src/frontend/src/lib/api.ts`: trim the input,
split into lines, find the first header line, then fold the loop body
over the lines starting two past the header. -/
def parseMarkdownTable (markdown : String) : List ParsedRow :=
  let lines := jsSplit (jsTrim markdown) '\n'
  match lines.findIdx? headerLine with
  | none => []
  | some headerIndex => (lines.drop (headerIndex + 2)).foldl tableRowStep []

/-- Declarative row extraction used to state what the loop does to one
line: a row exactly when the trimmed line starts with a pipe and has at
least seven non-empty cells. -/
def rowOf (l : String) : Option ParsedRow :=
  let line := jsTrim l
  if jsStartsWith line "|" && decide (7 ≤ (rowCells line).length) then
    some (mkParsedRow (rowCells line))
  else none

/-! ## Results page (`src/frontend/src/app/results/page.tsx` and
`src/frontend/src/components/ResultsStep.tsx`) -/

/-- Allegation row as built by the results page from a parsed row
(`page.tsx` lines 35-43). -/
structure AllegationRow where
  paragraph : String
  date : String
  speaker : String
  context : String
  misstatement : String
  falsityReason : String
  falsitySummary : String
deriving DecidableEq, Repr

/-- Field-by-field conversion of a parsed row performed by the results
page (`page.tsx` lines 35-43). -/
def toAllegationRow (r : ParsedRow) : AllegationRow :=
  ⟨r.paragraph, r.date, r.speaker, r.context, r.misstatement,
   r.falsityReason, r.falsitySummary⟩

/-- The status badge of `ResultsStep.tsx` lines 29-39: the approved badge
when the status is approved, the max-iterations badge otherwise. -/
inductive Badge where
  | approvedBadge
  | maxIterationsBadge
deriving DecidableEq, Repr

/-- Badge selection of `ResultsStep.tsx` line 29. -/
def resultsStepBadge (r : TypesProcessingResult) : Badge :=
  if r.status = TypesStatus.approved then Badge.approvedBadge
  else Badge.maxIterationsBadge

/-- What the results route renders. -/
inductive ResultsView where
  | redirectUpload
  | results (allegations : List AllegationRow) (badge : Badge)
deriving DecidableEq, Repr

/-- `ResultsPage` of `src/frontend/src/app/results/page.tsx`: with no
stored result it redirects to the upload page; otherwise it parses the
final chart with `parseMarkdownTable`, converts the rows, and renders
`ResultsStep` with the badge chosen from the status — there is no other
branch on the status and no error screen for a well-formed result. -/
def resultsPage (stored : Option TypesProcessingResult) : ResultsView :=
  match stored with
  | none => ResultsView.redirectUpload
  | some r =>
      ResultsView.results ((parseMarkdownTable r.final_chart).map toAllegationRow)
        (resultsStepBadge r)

/-! ## Session-storage file passing (`src/unnamed/part_003`, storage.ts) -/

/-- The metadata record `StoredFileData` stored under the uploadedFile
key. -/
structure StoredFileData where
  fileName : String
  fileSize : Nat
  uploadTime : Nat
deriving DecidableEq, Repr

/-- A browser `File`: name, size and content.  The data-URL encoding that
`FileReader.readAsDataURL` applies to the content is opaque to the
storage utilities, so the content slot is modelled as the string the
reader produced. -/
structure BrowserFile where
  name : String
  size : Nat
  content : String
deriving DecidableEq, Repr

/-- The two sessionStorage keys the storage utilities touch:
uploadedFile (JSON metadata, modelled parsed) and uploadedFileContent
(the reader's data-URL string). -/
structure SessionStore where
  uploadedFile : Option StoredFileData
  uploadedFileContent : Option String
deriving DecidableEq, Repr

/-- `storeFileData`: write the metadata record, then — only when the
asynchronous reader fires with a result (`readOk`) — write the content
entry; on a reader failure the previous content entry is left as is. -/
def storeFileData (file : BrowserFile) (now : Nat) (readOk : Bool)
    (s : SessionStore) : SessionStore :=
  ⟨some ⟨file.name, file.size, now⟩,
   if readOk then some file.content else s.uploadedFileContent⟩

/-- `getStoredFileData`: parse the metadata entry, null when absent
(JSON round trip modelled as the identity). -/
def getStoredFileData (s : SessionStore) : Option StoredFileData :=
  s.uploadedFile

/-- `getStoredFile`: null when either entry is absent; otherwise rebuild
a `File` from the content blob bearing the recorded fileName. -/
def getStoredFile (s : SessionStore) : Option BrowserFile :=
  match getStoredFileData s, s.uploadedFileContent with
  | some fd, some content => some ⟨fd.fileName, content.length, content⟩
  | _, _ => none

/-- `clearStoredFile`: remove both entries. -/
def clearStoredFile (_s : SessionStore) : SessionStore :=
  ⟨none, none⟩

/-! ## SSE streaming client (`processComplaintWithProgress`,
api.ts lines 83-144) -/

/-- Event type tag of a `ProgressUpdate` (api.ts lines 18-25). -/
inductive UpdateType where
  | progress
  | complete
  | error
deriving DecidableEq, Repr

/-- The `ProgressUpdate` payload of one SSE data event
(api.ts lines 18-25); the optional fields mirror the interface. -/
structure ProgressUpdate where
  type : UpdateType
  step : Option String
  iteration : Option Nat
  max_iterations : Option Nat
  message : Option String
  result : Option ProcessingResult
deriving DecidableEq, Repr

/-- The `APIError` data (api.ts lines 33-38): HTTP-style status code and
message. -/
structure APIErrorData where
  status : Nat
  message : String
deriving DecidableEq, Repr

/-- Message of the thrown error for an error event:
`data.message || 'Processing failed'` — the JS falsy test also replaces
an empty message string. -/
def errorMessageOf (u : ProgressUpdate) : String :=
  match u.message with
  | some m => if m = "" then "Processing failed" else m
  | none => "Processing failed"

/-- The stream lines in processing order: each received chunk is split on
the newline character and the lines are handled in order. -/
def sseLines (chunks : List String) : List String :=
  (chunks.map (fun c => jsSplit c '\n')).flatten

/-- The loop over the stream lines.  `trace` is the sequence of
`onProgress` invocations so far, `acc` the last result carried by a
complete event.  A line not starting with the data marker is skipped; a
data payload that fails to parse is silently ignored; a parsed payload is
handed to the callback, then a complete event with a result overwrites
`acc` and the loop continues, an error event aborts the whole call with a
500 `APIError`; when the stream ends the loop returns the accumulated
result or throws a 500 `APIError` when none arrived.  `parse` stands for
`JSON.parse` restricted to `ProgressUpdate` payloads (a browser builtin,
external to the repository), with `none` for a parse failure. -/
def processLoop (parse : String → Option ProgressUpdate) :
    List String → List ProgressUpdate → Option ProcessingResult →
    List ProgressUpdate × Except APIErrorData ProcessingResult
  | [], trace, none =>
      (trace, Except.error ⟨500, "No result received from server"⟩)
  | [], trace, some r => (trace, Except.ok r)
  | line :: rest, trace, acc =>
      if jsStartsWith line "data: " then
        match parse (jsDrop line 6) with
        | none => processLoop parse rest trace acc
        | some u =>
            if u.type = UpdateType.complete then
              match u.result with
              | some r => processLoop parse rest (trace ++ [u]) (some r)
              | none => processLoop parse rest (trace ++ [u]) acc
            else if u.type = UpdateType.error then
              (trace ++ [u], Except.error ⟨500, errorMessageOf u⟩)
            else processLoop parse rest (trace ++ [u]) acc
      else processLoop parse rest trace acc

/-- `processComplaintWithProgress` of `src/frontend/src/lib/api.ts` after
a successful fetch: read the chunks, process every line, return the
callback trace and the outcome (the returned result or the thrown
`APIError`). -/
def processComplaintWithProgress (parse : String → Option ProgressUpdate)
    (chunks : List String) :
    List ProgressUpdate × Except APIErrorData ProcessingResult :=
  processLoop parse (sseLines chunks) [] none

/-- The parsed data events a line stream carries, in order: one per line
that starts with the data marker and whose payload parses. -/
def dataEventsOf (parse : String → Option ProgressUpdate)
    (lines : List String) : List ProgressUpdate :=
  lines.filterMap (fun l =>
    if jsStartsWith l "data: " then parse (jsDrop l 6) else none)

/-- Fold step tracking the result carried by the latest complete event. -/
def completeStep (acc : Option ProcessingResult) (u : ProgressUpdate) :
    Option ProcessingResult :=
  if u.type = UpdateType.complete then
    match u.result with
    | some r => some r
    | none => acc
  else acc

/-- The result carried by the last complete event of an event list. -/
def lastCompleteResult (evs : List ProgressUpdate) : Option ProcessingResult :=
  evs.foldl completeStep none

/-- Outcome of the stream once all lines are consumed: the accumulated
result, or the thrown 500 `APIError` when no complete event arrived. -/
def finishOutcome (acc : Option ProcessingResult) :
    Except APIErrorData ProcessingResult :=
  match acc with
  | some r => Except.ok r
  | none => Except.error ⟨500, "No result received from server"⟩

/-- A complete event used to exercise the streaming client. -/
def testComplete : ProgressUpdate :=
  ⟨UpdateType.complete, none, none, none, none,
   some ⟨"chart", 1, [⟨1, "chart", ""⟩], Status.approved⟩⟩

/-- A progress event used to exercise the streaming client. -/
def testProgress : ProgressUpdate :=
  ⟨UpdateType.progress, some "reviewing", some 1, some 3, some "msg", none⟩

/-- A concrete payload decoder standing in for JSON.parse in the
witness: "P" is a progress event, "C" a complete event, anything else
fails to parse. -/
def testParse : String → Option ProgressUpdate :=
  fun s => if s = "P" then some testProgress
    else if s = "C" then some testComplete else none

/-! ## Concrete agent oracles used to exercise the model -/

/-- Reviewer approves the generated chart at once. -/
def agApproves : Agents :=
  ⟨Except.ok "C0", fun _ _ => Except.ok "", fun _ _ _ => Except.error ()⟩

/-- Reviewer always returns an issue; Fixer appends a marker. -/
def agAlwaysIssues : Agents :=
  ⟨Except.ok "C0", fun _ _ => Except.ok "issue",
   fun _ chart _ => Except.ok (chart ++ "+")⟩

/-- Reviewer call fails at once. -/
def agReviewerFails : Agents :=
  ⟨Except.ok "C0", fun _ _ => Except.error (), fun _ _ _ => Except.error ()⟩

/-- Generator call fails. -/
def agGeneratorFails : Agents :=
  ⟨Except.error (), fun _ _ => Except.ok "", fun _ _ _ => Except.error ()⟩

/-- Expected outcome of `run agAlwaysIssues 3`. -/
def wExhausted : LoopOut :=
  ⟨⟨"C0++", 3,
    [⟨1, "C0", "issue"⟩, ⟨2, "C0+", "issue"⟩, ⟨3, "C0++", "issue"⟩],
    Status.max_iterations_reached⟩, 3, 2⟩

/-- Expected outcome of `run agApproves 3`. -/
def wApproved : LoopOut :=
  ⟨⟨"C0", 1, [⟨1, "C0", ""⟩], Status.approved⟩, 1, 0⟩

/-- Expected outcome of `run agReviewerFails 3`. -/
def wRevFailed : LoopOut :=
  ⟨⟨"C0", 0, [], Status.reviewer_failed⟩, 1, 0⟩

/-! ## Loop invariants of the orchestrator model -/

/-- Terminal invariant of the review loop: in every approved or exhausted
outcome the history length equals the iteration count and the final chart
is the chart of the last history record.  The fuel bookkeeping
(`hist.length + fuel = maxIter`, `hist.length < maxIter`) is the
reachable-state invariant of `run` for `1 ≤ maxIter`. -/
lemma reviewLoop_terminal (ag : Agents) (maxIter : Nat) :
    ∀ fuel chart hist, hist.length + fuel = maxIter → hist.length < maxIter →
      ((reviewLoop ag maxIter fuel chart hist).result.status = Status.approved ∨
       (reviewLoop ag maxIter fuel chart hist).result.status =
         Status.max_iterations_reached) →
      (reviewLoop ag maxIter fuel chart hist).result.history.length =
        (reviewLoop ag maxIter fuel chart hist).result.iterations ∧
      ((reviewLoop ag maxIter fuel chart hist).result.history.getLast?).map
          IterationData.chart =
        some (reviewLoop ag maxIter fuel chart hist).result.final_chart := by
  intro fuel
  induction fuel with
  | zero => intro chart hist hfuel hlt; omega
  | succ fuel ih =>
    intro chart hist hfuel hlt hterm
    cases hrev : ag.review (hist.length + 1) chart with
    | error e => simp [reviewLoop, hrev] at hterm
    | ok issues =>
      by_cases hiss : issues = ""
      · simp [reviewLoop, hrev, hiss, List.getLast?_concat]
      · by_cases hcap : maxIter ≤ hist.length + 1
        · simp [reviewLoop, hrev, hiss, hcap, List.getLast?_concat]
        · cases hfix : ag.fix (hist.length + 1) chart issues with
          | error e => simp [reviewLoop, hrev, hiss, hcap, hfix] at hterm
          | ok chart2 =>
            simp only [reviewLoop, hrev, if_neg hiss, if_neg hcap, hfix] at hterm ⊢
            exact ih chart2 (hist ++ [⟨hist.length + 1, chart, issues⟩])
              (by simp; omega) (by simp; omega) hterm

/-- Call-count invariant of the review loop: the iteration count never
exceeds the cap, the loop performs at most `fuel` Reviewer calls and at
most `fuel - 1` Fixer calls. -/
lemma reviewLoop_bounds (ag : Agents) (maxIter : Nat) :
    ∀ fuel chart hist, hist.length + fuel = maxIter →
      (reviewLoop ag maxIter fuel chart hist).result.iterations ≤ maxIter ∧
      (reviewLoop ag maxIter fuel chart hist).reviewerCalls ≤ fuel ∧
      (reviewLoop ag maxIter fuel chart hist).fixerCalls ≤ fuel - 1 := by
  intro fuel
  induction fuel with
  | zero =>
    intro chart hist hfuel
    simp only [reviewLoop]
    omega
  | succ fuel ih =>
    intro chart hist hfuel
    cases hrev : ag.review (hist.length + 1) chart with
    | error e => simp [reviewLoop, hrev]; omega
    | ok issues =>
      by_cases hiss : issues = ""
      · simp [reviewLoop, hrev, hiss]; omega
      · by_cases hcap : maxIter ≤ hist.length + 1
        · simp [reviewLoop, hrev, hiss, hcap]; omega
        · cases hfix : ag.fix (hist.length + 1) chart issues with
          | error e => simp [reviewLoop, hrev, hiss, hcap, hfix]; omega
          | ok chart2 =>
            simp only [reviewLoop, hrev, if_neg hiss, if_neg hcap, hfix]
            have := ih chart2 (hist ++ [⟨hist.length + 1, chart, issues⟩])
              (by simp; omega)
            simp at this ⊢
            omega

/-- Reviewer-failure invariant: when the loop stops `reviewer_failed`,
the history is exactly the completed iterations, the failing Reviewer
call was the one of iteration `history.length + 1` on the final chart,
and the final chart is the chart produced before that iteration
(`chartProv`). -/
lemma reviewLoop_reviewer_failed (ag : Agents) (maxIter : Nat) (c0 : String) :
    ∀ fuel chart hist, chartProv ag c0 chart hist →
      (reviewLoop ag maxIter fuel chart hist).result.status =
        Status.reviewer_failed →
      (reviewLoop ag maxIter fuel chart hist).result.history.length =
        (reviewLoop ag maxIter fuel chart hist).result.iterations ∧
      ag.review
          ((reviewLoop ag maxIter fuel chart hist).result.history.length + 1)
          (reviewLoop ag maxIter fuel chart hist).result.final_chart =
        Except.error () ∧
      chartProv ag c0 (reviewLoop ag maxIter fuel chart hist).result.final_chart
        (reviewLoop ag maxIter fuel chart hist).result.history := by
  intro fuel
  induction fuel with
  | zero => intro chart hist _ hst; simp [reviewLoop] at hst
  | succ fuel ih =>
    intro chart hist hprov hst
    cases hrev : ag.review (hist.length + 1) chart with
    | error e =>
      cases e
      simp [reviewLoop, hrev, hprov]
    | ok issues =>
      by_cases hiss : issues = ""
      · simp [reviewLoop, hrev, hiss] at hst
      · by_cases hcap : maxIter ≤ hist.length + 1
        · simp [reviewLoop, hrev, hiss, hcap] at hst
        · cases hfix : ag.fix (hist.length + 1) chart issues with
          | error e => simp [reviewLoop, hrev, hiss, hcap, hfix] at hst
          | ok chart2 =>
            simp only [reviewLoop, hrev, if_neg hiss, if_neg hcap, hfix] at hst ⊢
            refine ih chart2 (hist ++ [⟨hist.length + 1, chart, issues⟩]) ?_ hst
            simp [chartProv, List.getLast?_concat, hfix]

/-- Terminal invariant lifted to the run entry point; shared by the
claims about terminal results. -/
lemma run_terminal_core (ag : Agents) (maxIter : Nat) (h1 : 1 ≤ maxIter)
    (out : LoopOut) (hrun : run ag maxIter = Except.ok out)
    (hterm : out.result.status = Status.approved ∨
             out.result.status = Status.max_iterations_reached) :
    out.result.history.length = out.result.iterations ∧
    (out.result.history.getLast?).map IterationData.chart =
      some out.result.final_chart := by
  unfold run at hrun
  cases hg : ag.generate with
  | error e => rw [hg] at hrun; simp at hrun
  | ok c0 =>
    rw [hg] at hrun
    simp only [Except.ok.injEq] at hrun
    subst hrun
    exact reviewLoop_terminal ag maxIter maxIter c0 [] (by simp)
      (by simp; omega) hterm

/-! ## Claims about the orchestrator -/

/-- C1: every run that ends approved or exhausted satisfies
`history.length = iterations` and `final_chart` equals the chart of the
last history record; in particular on EXHAUSTED the final chart is the
last-reviewed chart, never a fix applied after the iteration cap. -/
theorem run_terminal_invariants (ag : Agents) (maxIter : Nat)
    (h1 : 1 ≤ maxIter) (out : LoopOut)
    (hrun : run ag maxIter = Except.ok out)
    (hterm : out.result.status = Status.approved ∨
             out.result.status = Status.max_iterations_reached) :
    out.result.history.length = out.result.iterations ∧
    (out.result.history.getLast?).map IterationData.chart =
      some out.result.final_chart :=
  run_terminal_core ag maxIter h1 out hrun hterm

/-- C1 witness: a run that exhausts three iterations. -/
theorem run_terminal_invariants_witness :
    run agAlwaysIssues 3 = Except.ok wExhausted ∧
    wExhausted.result.history.length = wExhausted.result.iterations ∧
    (wExhausted.result.history.getLast?).map IterationData.chart =
      some wExhausted.result.final_chart :=
  ⟨rfl,
   run_terminal_invariants agAlwaysIssues 3 (by decide) wExhausted rfl
     (Or.inr rfl)⟩

/-- C2: for every run with `1 ≤ max_iterations` the iteration count is at
most the cap, the Reviewer is called at most `max_iterations` times, the
Fixer at most `max_iterations - 1` times, total model calls stay within
`1 + max_iterations + (max_iterations - 1)`, and the default cap is 3. -/
theorem run_call_bounds (ag : Agents) (maxIter : Nat) (h1 : 1 ≤ maxIter)
    (out : LoopOut) (hrun : run ag maxIter = Except.ok out) :
    out.result.iterations ≤ maxIter ∧
    out.reviewerCalls ≤ maxIter ∧
    out.fixerCalls ≤ maxIter - 1 ∧
    1 + out.reviewerCalls + out.fixerCalls ≤ 1 + maxIter + (maxIter - 1) ∧
    defaultMaxIterations = 3 := by
  unfold run at hrun
  cases hg : ag.generate with
  | error e => rw [hg] at hrun; simp at hrun
  | ok c0 =>
    rw [hg] at hrun
    simp only [Except.ok.injEq] at hrun
    subst hrun
    have hb := reviewLoop_bounds ag maxIter maxIter c0 [] (by simp)
    exact ⟨hb.1, hb.2.1, hb.2.2, by omega, rfl⟩

/-- C2 witness: the exhausting run stays within the bounds for cap 3. -/
theorem run_call_bounds_witness :
    run agAlwaysIssues 3 = Except.ok wExhausted ∧
    wExhausted.result.iterations ≤ 3 ∧
    wExhausted.reviewerCalls ≤ 3 ∧
    wExhausted.fixerCalls ≤ 2 ∧
    defaultMaxIterations = 3 := by
  have h := run_call_bounds agAlwaysIssues 3 (by decide) wExhausted rfl
  exact ⟨rfl, h.1, h.2.1, h.2.2.1, h.2.2.2.2⟩

/-- C3: when the Reviewer returns empty issues for the current chart, the
loop performs no further Fixer call, stops approved and returns that very
chart; when this happens on the first review the run returns
iteration count 1. -/
theorem approval_stops_loop (ag : Agents) (maxIter fuel : Nat)
    (chart : String) (hist : List IterationData)
    (happr : ag.review (hist.length + 1) chart = Except.ok "") :
    reviewLoop ag maxIter (fuel + 1) chart hist =
      ⟨⟨chart, hist.length + 1, hist ++ [⟨hist.length + 1, chart, ""⟩],
        Status.approved⟩, 1, 0⟩ ∧
    (∀ c0, ag.generate = Except.ok c0 → ag.review 1 c0 = Except.ok "" →
      1 ≤ maxIter →
      run ag maxIter =
        Except.ok ⟨⟨c0, 1, [⟨1, c0, ""⟩], Status.approved⟩, 1, 0⟩) := by
  constructor
  · simp [reviewLoop, happr]
  · intro c0 hg hr1 hmax
    obtain ⟨m, rfl⟩ : ∃ m, maxIter = m + 1 := ⟨maxIter - 1, by omega⟩
    unfold run
    rw [hg]
    simp [reviewLoop, hr1]

/-- C3 witness: first-pass approval. -/
theorem approval_stops_loop_witness :
    agApproves.review 1 "C0" = Except.ok "" ∧
    run agApproves 3 = Except.ok wApproved :=
  ⟨rfl,
   (approval_stops_loop agApproves 3 2 "C0" [] rfl).2 "C0"
     rfl rfl (by decide)⟩

/-- C5: a Reviewer failure on iteration `k = history.length + 1`
terminates the run with every completed iteration preserved
(`history.length = iterations = k - 1`), and the final chart is the
non-empty chart produced before iteration `k` — the generated chart when
no iteration completed, otherwise the Fixer output of the last record. -/
theorem reviewer_failure_partial_history (ag : Agents) (maxIter : Nat)
    (c0 : String) (out : LoopOut)
    (hgen : ag.generate = Except.ok c0)
    (hrun : run ag maxIter = Except.ok out)
    (hst : out.result.status = Status.reviewer_failed)
    (hc0 : c0 ≠ "")
    (hfix : ∀ k ch is c, ag.fix k ch is = Except.ok c → c ≠ "") :
    out.result.history.length = out.result.iterations ∧
    ag.review (out.result.history.length + 1) out.result.final_chart =
      Except.error () ∧
    chartProv ag c0 out.result.final_chart out.result.history ∧
    out.result.final_chart ≠ "" := by
  unfold run at hrun
  rw [hgen] at hrun
  simp only [Except.ok.injEq] at hrun
  subst hrun
  have base : chartProv ag c0 c0 [] := by simp [chartProv]
  obtain ⟨h1, h2, h3⟩ :=
    reviewLoop_reviewer_failed ag maxIter c0 maxIter c0 [] base hst
  refine ⟨h1, h2, h3, ?_⟩
  revert h3
  unfold chartProv
  cases hl :
      (reviewLoop ag maxIter maxIter c0 []).result.history.getLast? with
  | none => intro h3; rw [h3]; exact hc0
  | some r => intro h3; exact hfix _ _ _ _ h3

/-- C5 witness: the Reviewer fails on the very first iteration. -/
theorem reviewer_failure_witness :
    agReviewerFails.generate = Except.ok "C0" ∧
    run agReviewerFails 3 = Except.ok wRevFailed ∧
    (wRevFailed.result.history.length = wRevFailed.result.iterations ∧
     agReviewerFails.review (wRevFailed.result.history.length + 1)
         wRevFailed.result.final_chart = Except.error () ∧
     chartProv agReviewerFails "C0" wRevFailed.result.final_chart
       wRevFailed.result.history ∧
     wRevFailed.result.final_chart ≠ "") :=
  ⟨rfl, rfl,
   reviewer_failure_partial_history agReviewerFails 3 "C0" wRevFailed rfl
     rfl rfl (by decide)
     (fun _ _ _ _ h => by simp [agReviewerFails] at h)⟩

/-- C6: when the Generator call fails during SEEDING the caller receives
an upstream-failure signal instead of a RunResult: no result value and no
history record exists. -/
theorem generator_failure_no_result (ag : Agents) (maxIter : Nat)
    (hgen : ag.generate = Except.error ()) :
    run ag maxIter = Except.error Failure.upstreamFailure ∧
    ∀ out : LoopOut, run ag maxIter ≠ Except.ok out := by
  have h : run ag maxIter = Except.error Failure.upstreamFailure := by
    unfold run; rw [hgen]
  exact ⟨h, fun out hc => by rw [h] at hc; exact Except.noConfusion hc⟩

/-- C6 witness: a failing Generator oracle. -/
theorem generator_failure_witness :
    agGeneratorFails.generate = Except.error () ∧
    run agGeneratorFails 3 = Except.error Failure.upstreamFailure :=
  ⟨rfl, (generator_failure_no_result agGeneratorFails 3 rfl).1⟩

/-! ## Claims about serialization and the presentation layer -/

/-- C4 counterexample: the claim says the type the presentation layer
consumes admits all four status values, but `reviewer_failed` — a value
of the API enum — is not admitted by the types-module union the pages
import. -/
theorem presentation_status_counterexample :
    Status.serialize Status.reviewer_failed ∈ apiStatusValues ∧
    Status.serialize Status.reviewer_failed ∉ typesStatusValues := by
  decide

/-- C4 (amended): the run result serializes with a status drawn from the
four-value API enum and `iterations ≥ 1` on every terminal approved or
exhausted run; the API client type admits all four values, but the type
the presentation layer uses admits only `approved` and
`max_iterations_reached`. -/
theorem result_serialization_amended :
    (∀ s : Status, Status.serialize s ∈ apiStatusValues) ∧
    (∀ v ∈ typesStatusValues, v ∈ apiStatusValues) ∧
    Status.serialize Status.approved ∈ typesStatusValues ∧
    Status.serialize Status.max_iterations_reached ∈ typesStatusValues ∧
    Status.serialize Status.reviewer_failed ∉ typesStatusValues ∧
    Status.serialize Status.fixer_failed ∉ typesStatusValues ∧
    (∀ ag maxIter out, 1 ≤ maxIter → run ag maxIter = Except.ok out →
      out.result.status = Status.approved ∨
        out.result.status = Status.max_iterations_reached →
      1 ≤ out.result.iterations) := by
  refine ⟨fun s => by cases s <;> decide, by decide, by decide, by decide,
    by decide, by decide, ?_⟩
  intro ag maxIter out hmax hrun hterm
  obtain ⟨hlen, hlast⟩ :=
    run_terminal_core ag maxIter hmax out hrun hterm
  cases hh : out.result.history with
  | nil => rw [hh] at hlast; simp at hlast
  | cons a t => rw [hh] at hlen; simp at hlen; omega

/-- C4 witness: a concrete approved run with iteration count 1. -/
theorem result_serialization_witness :
    Status.serialize Status.approved ∈ apiStatusValues ∧
    run agApproves 3 = Except.ok wApproved ∧
    1 ≤ wApproved.result.iterations :=
  ⟨result_serialization_amended.1 Status.approved, rfl,
   result_serialization_amended.2.2.2.2.2.2 agApproves 3 wApproved
     (by decide) rfl (Or.inl rfl)⟩

/-- C7: a `max_iterations_reached` result is rendered by the results view
as a success: the allegation table is the one parsed from `final_chart`,
identical to the table rendered for an approved result with the same
chart, only the status badge differs, and the result is never routed to
the redirect/failure screen. -/
theorem exhausted_rendered_as_success (fc : String) (it : Nat)
    (hist : List IterationData) :
    resultsPage (some ⟨fc, it, hist, TypesStatus.max_iterations_reached⟩) =
      ResultsView.results ((parseMarkdownTable fc).map toAllegationRow)
        Badge.maxIterationsBadge ∧
    resultsPage (some ⟨fc, it, hist, TypesStatus.approved⟩) =
      ResultsView.results ((parseMarkdownTable fc).map toAllegationRow)
        Badge.approvedBadge ∧
    resultsPage (some ⟨fc, it, hist, TypesStatus.max_iterations_reached⟩) ≠
      ResultsView.redirectUpload := by
  refine ⟨rfl, rfl, ?_⟩
  simp [resultsPage, resultsStepBadge]

/-! ## Claims about the session-storage utilities -/

/-- C10: clearing removes both entries so both getters return null; the
file getter returns null whenever either entry is absent; and whenever a
file is reconstructed after a store, it bears exactly the stored
fileName. -/
theorem storage_file_passing :
    (∀ s, getStoredFileData (clearStoredFile s) = none ∧
       getStoredFile (clearStoredFile s) = none) ∧
    (∀ s : SessionStore,
       s.uploadedFile = none ∨ s.uploadedFileContent = none →
       getStoredFile s = none) ∧
    (∀ (file : BrowserFile) (now : Nat) (readOk : Bool) (s : SessionStore)
       (g : BrowserFile),
       getStoredFile (storeFileData file now readOk s) = some g →
       g.name = file.name) := by
  refine ⟨fun s => ⟨rfl, rfl⟩, ?_, ?_⟩
  · rintro ⟨uf, uc⟩ (rfl | rfl)
    · rfl
    · cases uf <;> rfl
  · intro file now readOk s g hg
    cases readOk with
    | true =>
      simp [getStoredFile, getStoredFileData, storeFileData] at hg
      rw [← hg]
    | false =>
      cases hc : s.uploadedFileContent with
      | none =>
        simp [getStoredFile, getStoredFileData, storeFileData, hc] at hg
      | some c =>
        simp [getStoredFile, getStoredFileData, storeFileData, hc] at hg
        rw [← hg]

/-- C10 witness: a cleared store yields null, and a store/retrieve round
trip preserves the file name. -/
theorem storage_file_passing_witness :
    ((⟨none, none⟩ : SessionStore).uploadedFile = none ∨
      (⟨none, none⟩ : SessionStore).uploadedFileContent = none) ∧
    getStoredFile ⟨none, none⟩ = none ∧
    getStoredFile (storeFileData ⟨"f.txt", 3, "abc"⟩ 7 true ⟨none, none⟩) =
      some ⟨"f.txt", 3, "abc"⟩ ∧
    (⟨"f.txt", 3, "abc"⟩ : BrowserFile).name =
      (⟨"f.txt", 3, "abc"⟩ : BrowserFile).name :=
  ⟨Or.inl rfl,
   storage_file_passing.2.1 ⟨none, none⟩ (Or.inl rfl),
   by decide,
   storage_file_passing.2.2 ⟨"f.txt", 3, "abc"⟩ 7 true ⟨none, none⟩
     ⟨"f.txt", 3, "abc"⟩ (by decide)⟩

/-! ## Claims about the markdown table parser -/

/-- The empty string does not start with a pipe. -/
lemma jsStartsWith_empty_pipe : jsStartsWith "" "|" = false := by decide

/-- One loop step appends exactly the row extracted from the line. -/
lemma tableRowStep_eq (data : List ParsedRow) (l : String) :
    tableRowStep data l = data ++ (rowOf l).toList := by
  unfold tableRowStep rowOf
  by_cases h0 : jsTrim l = ""
  · simp [h0, jsStartsWith_empty_pipe]
  · by_cases h1 : jsStartsWith (jsTrim l) "|" = true
    · by_cases h2 : 7 ≤ (rowCells (jsTrim l)).length
      · simp [h0, h1, h2]
      · simp [h0, h1, h2]
    · simp [h0, h1]

/-- The data-row loop is the row extraction mapped over the lines. -/
lemma foldl_tableRowStep (ls : List String) (acc : List ParsedRow) :
    ls.foldl tableRowStep acc = acc ++ ls.filterMap rowOf := by
  induction ls generalizing acc with
  | nil => simp
  | cons l ls ih =>
    rw [List.foldl_cons, tableRowStep_eq, List.filterMap_cons]
    cases h : rowOf l with
    | none => simp [h, ih]
    | some r => simp [h, ih]

/-- C9: the parser is total, returns the empty list when no line contains
both "Para" and "Date", and otherwise returns exactly one row per line
that lies at least two lines past the first header line, starts with a
pipe after trimming and splits into at least seven non-empty trimmed
cells; lines with fewer cells are dropped, and since empty cells are
filtered before positional assignment, a blank cell shifts every later
column left — as the concrete instance shows, where the blank second cell
makes the date column receive "b". -/
theorem parse_table_characterization :
    (∀ md, (jsSplit (jsTrim md) '\n').findIdx? headerLine = none →
       parseMarkdownTable md = []) ∧
    (∀ md h, (jsSplit (jsTrim md) '\n').findIdx? headerLine = some h →
       parseMarkdownTable md =
         ((jsSplit (jsTrim md) '\n').drop (h + 2)).filterMap rowOf) ∧
    parseMarkdownTable "Para Date\nsep\n| a |  | b | c | d | e | f | g |" =
      [⟨"a", "b", "c", "d", "e", "f", "g"⟩] := by
  refine ⟨?_, ?_, by decide⟩
  · intro md hm
    simp [parseMarkdownTable, hm]
  · intro md h hm
    simp [parseMarkdownTable, hm, foldl_tableRowStep]

/-- C9 witness: a header-free input parses to the empty list, and a
well-formed table parses to the filtered rows past the header. -/
theorem parse_table_witness :
    (jsSplit (jsTrim "hello") '\n').findIdx? headerLine = none ∧
    parseMarkdownTable "hello" = [] ∧
    (jsSplit (jsTrim "Para Date\ns\n| a | b | c | d | e | f | g |") '\n').findIdx?
        headerLine = some 0 ∧
    parseMarkdownTable "Para Date\ns\n| a | b | c | d | e | f | g |" =
      ((jsSplit (jsTrim "Para Date\ns\n| a | b | c | d | e | f | g |") '\n').drop
          2).filterMap rowOf :=
  ⟨by decide, parse_table_characterization.1 "hello" (by decide), by decide,
   parse_table_characterization.2.1
     "Para Date\ns\n| a | b | c | d | e | f | g |" 0 (by decide)⟩

/-! ## Claims about the SSE streaming client -/

/-- When no error event occurs, the loop invokes the callback exactly
once per parsed data event and finishes with the result of the last
complete event folded over the events. -/
lemma processLoop_no_error (parse : String → Option ProgressUpdate) :
    ∀ (lines : List String) (trace : List ProgressUpdate)
      (acc : Option ProcessingResult),
      (∀ u ∈ dataEventsOf parse lines, u.type ≠ UpdateType.error) →
      processLoop parse lines trace acc =
        (trace ++ dataEventsOf parse lines,
         finishOutcome ((dataEventsOf parse lines).foldl completeStep acc)) := by
  intro lines
  induction lines with
  | nil =>
    intro trace acc h
    cases acc <;> simp [processLoop, dataEventsOf, finishOutcome]
  | cons line rest ih =>
    intro trace acc h
    by_cases hd : jsStartsWith line "data: " = true
    · cases hp : parse (jsDrop line 6) with
      | none =>
        have hde : dataEventsOf parse (line :: rest) = dataEventsOf parse rest := by
          simp [dataEventsOf, hd, hp]
        rw [hde] at h ⊢
        simp only [processLoop, hd, if_true, hp]
        exact ih trace acc h
      | some u =>
        have hde : dataEventsOf parse (line :: rest) =
            u :: dataEventsOf parse rest := by
          simp [dataEventsOf, hd, hp]
        have hu : u.type ≠ UpdateType.error := by
          apply h; rw [hde]; exact List.mem_cons_self u _
        have hrest : ∀ v ∈ dataEventsOf parse rest, v.type ≠ UpdateType.error := by
          intro v hv; apply h; rw [hde]; exact List.mem_cons_of_mem u hv
        rw [hde]
        simp only [processLoop, hd, if_true, hp]
        by_cases hc : u.type = UpdateType.complete
        · cases hr : u.result with
          | some r =>
            simp only [hc, if_true, hr, ih _ _ hrest, List.foldl_cons,
              completeStep, hr, List.append_assoc, List.cons_append,
              List.nil_append, if_pos hc]
          | none =>
            simp only [hc, if_true, hr, ih _ _ hrest, List.foldl_cons,
              completeStep, hr, List.append_assoc, List.cons_append,
              List.nil_append, if_pos hc]
        · simp only [if_neg hc, if_neg hu]
          rw [ih _ _ hrest]
          simp only [List.foldl_cons, completeStep, if_neg hc,
            List.append_assoc, List.cons_append, List.nil_append]
    · have hde : dataEventsOf parse (line :: rest) = dataEventsOf parse rest := by
        simp [dataEventsOf, hd]
      rw [hde] at h ⊢
      simp only [processLoop, hd, if_false, Bool.false_eq_true, if_neg]
      exact ih trace acc h

/-- Whenever an error event occurs among the parsed data events, the call
throws a 500 `APIError`. -/
lemma processLoop_error_event (parse : String → Option ProgressUpdate) :
    ∀ (lines : List String) (trace : List ProgressUpdate)
      (acc : Option ProcessingResult),
      (∃ u ∈ dataEventsOf parse lines, u.type = UpdateType.error) →
      ∃ m, (processLoop parse lines trace acc).2 = Except.error ⟨500, m⟩ := by
  intro lines
  induction lines with
  | nil => intro trace acc h; simp [dataEventsOf] at h
  | cons line rest ih =>
    intro trace acc h
    by_cases hd : jsStartsWith line "data: " = true
    · cases hp : parse (jsDrop line 6) with
      | none =>
        simp only [processLoop, hd, if_true, hp]
        apply ih
        simpa [dataEventsOf, hd, hp] using h
      | some u =>
        simp only [processLoop, hd, if_true, hp]
        by_cases hc : u.type = UpdateType.complete
        · have hrest : ∃ v ∈ dataEventsOf parse rest, v.type = UpdateType.error := by
            obtain ⟨v, hv, hvt⟩ := h
            rw [show dataEventsOf parse (line :: rest) =
                u :: dataEventsOf parse rest by simp [dataEventsOf, hd, hp]] at hv
            rcases List.mem_cons.mp hv with rfl | hv2
            · rw [hc] at hvt; exact absurd hvt (by simp)
            · exact ⟨v, hv2, hvt⟩
          cases hr : u.result with
          | some r => simp only [hc, if_true, hr]; exact ih _ _ hrest
          | none => simp only [hc, if_true, hr]; exact ih _ _ hrest
        · by_cases he : u.type = UpdateType.error
          · simp only [if_neg hc, if_pos he]
            exact ⟨errorMessageOf u, rfl⟩
          · have hrest : ∃ v ∈ dataEventsOf parse rest, v.type = UpdateType.error := by
              obtain ⟨v, hv, hvt⟩ := h
              rw [show dataEventsOf parse (line :: rest) =
                  u :: dataEventsOf parse rest by simp [dataEventsOf, hd, hp]] at hv
              rcases List.mem_cons.mp hv with rfl | hv2
              · exact absurd hvt he
              · exact ⟨v, hv2, hvt⟩
            simp only [if_neg hc, if_neg he]
            exact ih _ _ hrest
    · simp only [processLoop, hd, if_false, Bool.false_eq_true, if_neg]
      apply ih
      simpa [dataEventsOf, hd] using h

/-- Every returned result was carried by a complete data event (or was
already accumulated on entry). -/
lemma processLoop_ok_source (parse : String → Option ProgressUpdate) :
    ∀ (lines : List String) (trace : List ProgressUpdate)
      (acc : Option ProcessingResult) (r : ProcessingResult),
      (processLoop parse lines trace acc).2 = Except.ok r →
      (∃ u ∈ dataEventsOf parse lines,
         u.type = UpdateType.complete ∧ u.result = some r) ∨ acc = some r := by
  intro lines
  induction lines with
  | nil =>
    intro trace acc r h
    cases acc with
    | none => simp [processLoop] at h
    | some a => simp [processLoop] at h; right; rw [h]
  | cons line rest ih =>
    intro trace acc r h
    by_cases hd : jsStartsWith line "data: " = true
    · rw [show dataEventsOf parse (line :: rest) =
          (match parse (jsDrop line 6) with
           | none => dataEventsOf parse rest
           | some u => u :: dataEventsOf parse rest) by
        cases hp : parse (jsDrop line 6) <;> simp [dataEventsOf, hd, hp]]
      cases hp : parse (jsDrop line 6) with
      | none =>
        simp only [processLoop, hd, if_true, hp] at h
        exact ih _ _ _ h
      | some u =>
        simp only [processLoop, hd, if_true, hp] at h
        by_cases hc : u.type = UpdateType.complete
        · cases hr : u.result with
          | some r2 =>
            simp only [hc, if_true, hr] at h
            rcases ih _ _ _ h with hin | hacc
            · obtain ⟨v, hv, hvp⟩ := hin
              exact Or.inl ⟨v, List.mem_cons_of_mem u hv, hvp⟩
            · refine Or.inl ⟨u, List.mem_cons_self u _, hc, ?_⟩
              rw [hr]; exact hacc
          | none =>
            simp only [hc, if_true, hr] at h
            rcases ih _ _ _ h with hin | hacc
            · obtain ⟨v, hv, hvp⟩ := hin
              exact Or.inl ⟨v, List.mem_cons_of_mem u hv, hvp⟩
            · exact Or.inr hacc
        · by_cases he : u.type = UpdateType.error
          · simp only [if_neg hc, if_pos he] at h
            exact absurd h (by simp)
          · simp only [if_neg hc, if_neg he] at h
            rcases ih _ _ _ h with hin | hacc
            · obtain ⟨v, hv, hvp⟩ := hin
              exact Or.inl ⟨v, List.mem_cons_of_mem u hv, hvp⟩
            · exact Or.inr hacc
    · rw [show dataEventsOf parse (line :: rest) = dataEventsOf parse rest by
        simp [dataEventsOf, hd]]
      simp only [processLoop, hd, if_false, Bool.false_eq_true, if_neg] at h
      exact ih _ _ _ h

/-- C8: the streaming client invokes the progress callback once per
parsed SSE data event, any returned result was carried by a complete
event (so it never returns without one), an error event makes it throw a
500 `APIError`, a stream without a complete event makes it throw the 500
no-result `APIError`, and without error events it returns the result of
the last complete event. -/
theorem streaming_client_contract (parse : String → Option ProgressUpdate)
    (chunks : List String) :
    ((∀ u ∈ dataEventsOf parse (sseLines chunks), u.type ≠ UpdateType.error) →
       (processComplaintWithProgress parse chunks).1 =
         dataEventsOf parse (sseLines chunks)) ∧
    (∀ r, (processComplaintWithProgress parse chunks).2 = Except.ok r →
       ∃ u ∈ dataEventsOf parse (sseLines chunks),
         u.type = UpdateType.complete ∧ u.result = some r) ∧
    ((∃ u ∈ dataEventsOf parse (sseLines chunks),
        u.type = UpdateType.error) →
       ∃ m, (processComplaintWithProgress parse chunks).2 =
         Except.error ⟨500, m⟩) ∧
    ((∀ u ∈ dataEventsOf parse (sseLines chunks), u.type ≠ UpdateType.error) →
       lastCompleteResult (dataEventsOf parse (sseLines chunks)) = none →
       (processComplaintWithProgress parse chunks).2 =
         Except.error ⟨500, "No result received from server"⟩) ∧
    ((∀ u ∈ dataEventsOf parse (sseLines chunks), u.type ≠ UpdateType.error) →
       ∀ r, lastCompleteResult (dataEventsOf parse (sseLines chunks)) = some r →
       (processComplaintWithProgress parse chunks).2 = Except.ok r) := by
  refine ⟨?_, ?_, ?_, ?_, ?_⟩
  · intro h
    unfold processComplaintWithProgress
    rw [processLoop_no_error parse (sseLines chunks) [] none h]
    simp
  · intro r h
    unfold processComplaintWithProgress at h
    rcases processLoop_ok_source parse (sseLines chunks) [] none r h with hin | hacc
    · exact hin
    · exact absurd hacc (by simp)
  · intro h
    unfold processComplaintWithProgress
    exact processLoop_error_event parse (sseLines chunks) [] none h
  · intro h hnone
    unfold processComplaintWithProgress
    rw [processLoop_no_error parse (sseLines chunks) [] none h]
    unfold lastCompleteResult at hnone
    simp [finishOutcome, hnone]
  · intro h r hsome
    unfold processComplaintWithProgress
    rw [processLoop_no_error parse (sseLines chunks) [] none h]
    unfold lastCompleteResult at hsome
    simp [finishOutcome, hsome]

/-- C8 witness: a stream with one progress and one complete event yields
one callback per event and returns the complete event's result. -/
theorem streaming_client_witness :
    (∀ u ∈ dataEventsOf testParse (sseLines ["data: P\ndata: C\n"]),
       u.type ≠ UpdateType.error) ∧
    (processComplaintWithProgress testParse ["data: P\ndata: C\n"]).1 =
      dataEventsOf testParse (sseLines ["data: P\ndata: C\n"]) ∧
    lastCompleteResult (dataEventsOf testParse (sseLines ["data: P\ndata: C\n"])) =
      some ⟨"chart", 1, [⟨1, "chart", ""⟩], Status.approved⟩ ∧
    (processComplaintWithProgress testParse ["data: P\ndata: C\n"]).2 =
      Except.ok ⟨"chart", 1, [⟨1, "chart", ""⟩], Status.approved⟩ :=
  ⟨by decide,
   (streaming_client_contract testParse ["data: P\ndata: C\n"]).1 (by decide),
   by decide,
   (streaming_client_contract testParse ["data: P\ndata: C\n"]).2.2.2.2
     (by decide) ⟨"chart", 1, [⟨1, "chart", ""⟩], Status.approved⟩ (by decide)⟩

end FalsityChart
